import Mathlib

/-!
# Verification of the logistic-classification utility functions

Shallow embedding of `src/utility_functions.py` (bernardo310/logistic-classification).
The numeric pipeline (scaling, hypothesis, gradient, training, prediction) is
modelled over `ℝ`; the evaluator (confusion matrix and performance metrics) and
the data split are modelled over `ℚ`, where Python's exact control flow
(integer division-by-zero, list index errors) is captured with `Option`:
`none` is an uncaught Python exception, `some r` a returned result.
-/

namespace LogisticClassification

/-! ## Evaluator: `get_confusion_matrix` (utility_functions.py lines 215-235)

The Python loop runs `i` over `range(len(predictions))` and tests, in order,
`predictions[i] == 1 and y[i] == 1`, `predictions[i] == 0 and y[i] == 0`,
`predictions[i] == 1 and y[i] == 0`, `predictions[i] == 0 and y[i] == 1`.
Because `and` short-circuits, `y[i]` is only evaluated when `predictions[i]`
is `0` or `1`; an `IndexError` (modelled as `none`) happens exactly at a
position `i ≥ len(y)` whose prediction is `0` or `1`.  The counts are the
tuple (tp, tn, fp, fn) = (matrix[0], matrix[1], matrix[2], matrix[3]). -/

def get_confusion_matrix : List ℚ → List ℚ → Option (ℕ × ℕ × ℕ × ℕ)
  | [], _ => some (0, 0, 0, 0)
  | p :: ps, [] =>
    if p = 1 ∨ p = 0 then none
    else get_confusion_matrix ps []
  | p :: ps, a :: as' =>
    match get_confusion_matrix ps as' with
    | none => none
    | some (tp, tn, fp, fn) =>
      if p = 1 ∧ a = 1 then some (tp + 1, tn, fp, fn)
      else if p = 0 ∧ a = 0 then some (tp, tn + 1, fp, fn)
      else if p = 1 ∧ a = 0 then some (tp, tn, fp + 1, fn)
      else if p = 0 ∧ a = 1 then some (tp, tn, fp, fn + 1)
      else some (tp, tn, fp, fn)

/-! ## Evaluator: metric computation of `print_performance_metrics`
(utility_functions.py lines 238-249)

The matrix entries are Python `int`s, so each `/` is true division and a zero
denominator raises `ZeroDivisionError` (modelled as `none`).  The printing is
peripheral I/O; the embedding returns the five computed metrics
(accuracy, precision, recall, specificity, f1). -/

def pydiv (a b : ℚ) : Option ℚ :=
  if b = 0 then none else some (a / b)

def print_performance_metrics (m : ℕ × ℕ × ℕ × ℕ) : Option (ℚ × ℚ × ℚ × ℚ × ℚ) :=
  match m with
  | (tp, tn, fp, fn) =>
    (pydiv ((tp : ℚ) + tn) ((tp : ℚ) + tn + fp + fn)).bind fun accuracy =>
    (pydiv (tp : ℚ) ((tp : ℚ) + fp)).bind fun precisionV =>
    (pydiv (tp : ℚ) ((tp : ℚ) + fn)).bind fun recallV =>
    (pydiv (tn : ℚ) ((tn : ℚ) + fp)).bind fun specificity =>
    (pydiv (precisionV * recallV) (precisionV + recallV)).bind fun q =>
    some (accuracy, precisionV, recallV, specificity, 2 * q)

/-! ## Data split of `load_data` (utility_functions.py lines 13-57)

After the (peripheral) CSV read and in-place shuffle, the `includes_y = 1`
branch computes `splitting_point = math.floor(len(data) * (split / 100))` and
slices rows `[:splitting_point]` into training, `[splitting_point:]` into
testing, with the first `number_x_columns` entries of each row as features and
the rest as labels.  `data` here stands for the already-shuffled row list. -/

def load_data_split (data : List (List ℚ)) (number_x_columns : ℕ) (split : ℚ) :
    List (List ℚ) × List (List ℚ) × List (List ℚ) × List (List ℚ) :=
  let splitting_point := (⌊(data.length : ℚ) * (split / 100)⌋).toNat
  let x_training_data := (data.take splitting_point).map (fun row => row.take number_x_columns)
  let y_training_data := (data.take splitting_point).map (fun row => row.drop number_x_columns)
  let x_testing_data := (data.drop splitting_point).map (fun row => row.take number_x_columns)
  let y_testing_data := (data.drop splitting_point).map (fun row => row.drop number_x_columns)
  (x_training_data, y_training_data, x_testing_data, y_testing_data)

/-! ## Vector and matrix primitives

Matrices are row lists; `np.matmul(m, v)` for a 2-D `m` and 1-D `v` is the
vector of dot products of the rows of `m` with `v`.  `x.T` is
`List.transpose`. -/

def dot (a b : List ℝ) : ℝ :=
  (List.zipWith (fun u v => u * v) a b).sum

def matVecMul (m : List (List ℝ)) (v : List ℝ) : List ℝ :=
  m.map (fun row => dot row v)

/-- The logistic function `1 / (1 + np.exp(-z))`, as written inline in
`eval_hypothesis_function_multivariate` (line 124) and `predict` (line 204). -/
noncomputable def sigmoid (z : ℝ) : ℝ :=
  1 / (1 + Real.exp (-z))

/-! ## Hypothesis Evaluator (utility_functions.py lines 114-125)

`hypothesis = 1 / (1 + np.exp(np.matmul(x.T, w) * -1))`: `x` arrives with
columns as examples (the trainer transposes it), so `x.T`'s rows are the
examples. -/

noncomputable def eval_hypothesis_function_multivariate
    (w : List ℝ) (x : List (List ℝ)) : List ℝ :=
  (matVecMul x.transpose w).map sigmoid

/-! ## Gradient Engine (utility_functions.py lines 128-156) -/

/-- Batch gradient: `error = hypothesis - y`, `gradient = np.matmul(x, error) / n`. -/
noncomputable def compute_gradient_of_cost_function_multivariate
    (hypothesis : List ℝ) (x : List (List ℝ)) (y : List ℝ) (n : ℕ) : List ℝ :=
  let error := List.zipWith (fun h v => h - v) hypothesis y
  (matVecMul x error).map (fun g => g / (n : ℝ))

/-- Euclidean norm of the gradient: `l2 = np.sqrt(np.sum(gradient ** 2))`. -/
noncomputable def compute_L2_norm_multivariate (gradient : List ℝ) : ℝ :=
  Real.sqrt ((gradient.map (fun g => g ^ 2)).sum)

/-! ## Trainer (utility_functions.py lines 159-188)

`gradient_descent` prepends a ones column to `x`, transposes it, sets
`n = len(y)` and runs `while(1)`: hypothesis → gradient → l2 norm →
`w = w - learning_rate * gradient` → return `w` when `l2 < stopping_criteria`.
The unbounded `while(1)` is embedded with explicit fuel: `none` means the loop
has not returned within `fuel` iterations. -/

/-- The bias-augmented, transposed training matrix the loop body works on:
`np.hstack((np.ones((len(x), 1)), x)).T`. -/
def augmented_transposed (x : List (List ℝ)) : List (List ℝ) :=
  (x.map (fun row => (1 : ℝ) :: row)).transpose

noncomputable def gradient_descent_loop (x : List (List ℝ)) (y : List ℝ)
    (learning_rate stopping_criteria : ℝ) :
    ℕ → List ℝ → Option (List ℝ)
  | 0, _ => none
  | fuel + 1, w =>
    let hypothesis := eval_hypothesis_function_multivariate w x
    let gradient :=
      compute_gradient_of_cost_function_multivariate hypothesis x y y.length
    let l2 := compute_L2_norm_multivariate gradient
    let w2 := List.zipWith (fun a g => a - learning_rate * g) w gradient
    if l2 < stopping_criteria then some w2
    else gradient_descent_loop x y learning_rate stopping_criteria fuel w2

noncomputable def gradient_descent (fuel : ℕ) (x : List (List ℝ)) (y w : List ℝ)
    (learning_rate stopping_criteria : ℝ) : Option (List ℝ) :=
  gradient_descent_loop (augmented_transposed x) y learning_rate stopping_criteria
    fuel w

/-- Single execution of the training-loop body starting from weights `w`
over the already augmented-transposed matrix `x`: evaluate the hypothesis,
compute the gradient, and update `w - lr * gradient`. -/
noncomputable def gd_step (x : List (List ℝ)) (y : List ℝ) (lr : ℝ)
    (w : List ℝ) : List ℝ :=
  List.zipWith (fun a g => a - lr * g) w
    (compute_gradient_of_cost_function_multivariate
      (eval_hypothesis_function_multivariate w x) x y y.length)

/-- Weight iterates of the training loop: `gd_weights x y lr w k` is the
weight vector after `k` executions of the loop body starting from `w`. -/
noncomputable def gd_weights (x : List (List ℝ)) (y : List ℝ) (lr : ℝ) :
    List ℝ → ℕ → List ℝ
  | w, 0 => w
  | w, k + 1 => gd_weights x y lr (gd_step x y lr w) k

/-- L2 norm of the gradient computed during iteration `k` of the training
loop (the iteration that moves `gd_weights … k` to `gd_weights … (k+1)`). -/
noncomputable def gd_l2 (x : List (List ℝ)) (y : List ℝ) (lr : ℝ)
    (w : List ℝ) (k : ℕ) : ℝ :=
  compute_L2_norm_multivariate
    (compute_gradient_of_cost_function_multivariate
      (eval_hypothesis_function_multivariate (gd_weights x y lr w k) x) x y
      y.length)

/-! ## Predictor (utility_functions.py lines 191-212)

`predict` prepends a ones column to `x`, computes
`1 / (1 + np.exp(np.matmul(x, w) * -1))` (here `x`'s rows are the examples, so
no transpose), then overwrites each probability with `1` if it is `≥ 0.5`,
else `0`. -/

noncomputable def predict (x : List (List ℝ)) (w : List ℝ) : List ℝ :=
  let x2 := x.map (fun row => (1 : ℝ) :: row)
  let predictions := x2.map (fun row => sigmoid (dot row w))
  predictions.map (fun p => if p ≥ 0.5 then (1 : ℝ) else 0)

/-! ## Scaler (utility_functions.py lines 61-111)

`scale_data(data, flag, mean=0, std=0)` branches on whether `mean`/`std` were
supplied as arrays.  The fit branch computes `np.mean(data, axis=0)` and
`np.std(data, axis=0)` (population statistics) and scales every entry to
`(data[i][j] - mean[j]) / std[j]` for `j` in `range(len(data[0]))`, returning
`(scaled, mean, std)`; the transform branch applies the identical formula with
the supplied `mean`/`std` and returns only the scaled matrix.  The two
branches are embedded as two definitions with independently spelled-out
loops, mirroring the duplicated Python loop bodies. -/

/-- Column `j` of a (rectangular) row-list matrix. -/
def column (data : List (List ℝ)) (j : ℕ) : List ℝ :=
  data.map (fun row => row.getD j 0)

/-- Population mean of a vector, `np.mean`: sum over length. -/
noncomputable def np_mean (v : List ℝ) : ℝ :=
  v.sum / (v.length : ℝ)

/-- Population standard deviation of a vector, `np.std`:
`sqrt(mean((v - mean(v))^2))`. -/
noncomputable def np_std (v : List ℝ) : ℝ :=
  Real.sqrt (((v.map (fun u => (u - np_mean v) ^ 2)).sum) / (v.length : ℝ))

/-- Per-column means, `np.mean(data, axis=0)`, one per column of the matrix. -/
noncomputable def np_mean_axis0 (data : List (List ℝ)) : List ℝ :=
  (List.range data.headI.length).map (fun j => np_mean (column data j))

/-- Per-column population standard deviations, `np.std(data, axis=0)`. -/
noncomputable def np_std_axis0 (data : List (List ℝ)) : List ℝ :=
  (List.range data.headI.length).map (fun j => np_std (column data j))

/-- The fit branch of `scale_data` (lines 76-100): compute `mean` and `std`
from `data`, scale every entry, return the triple. -/
noncomputable def scale_data_fit (data : List (List ℝ)) :
    List (List ℝ) × List ℝ × List ℝ :=
  let n_columns := data.headI.length
  let mean := np_mean_axis0 data
  let std := np_std_axis0 data
  let scaled_data := data.map (fun row =>
    (List.range n_columns).map (fun j => (row.getD j 0 - mean.getD j 0) / std.getD j 0))
  (scaled_data, mean, std)

/-- The transform branch of `scale_data` (lines 101-111): scale with the
externally supplied `mean` and `std`. -/
noncomputable def scale_data_transform (data : List (List ℝ)) (mean std : List ℝ) :
    List (List ℝ) :=
  let n_columns := data.headI.length
  data.map (fun row =>
    (List.range n_columns).map (fun j => (row.getD j 0 - mean.getD j 0) / std.getD j 0))

/-! ## General helper lemmas -/

theorem dot_zero_right (a b : List ℝ) (hb : ∀ c ∈ b, c = 0) : dot a b = 0 := by
  induction a generalizing b with
  | nil => rfl
  | cons u us ih =>
    cases b with
    | nil => rfl
    | cons c cs =>
      have hc : c = 0 := hb c (List.mem_cons_self c cs)
      have htail : dot us cs = 0 :=
        ih cs (fun d hd => hb d (List.mem_cons_of_mem c hd))
      simp only [dot, List.zipWith_cons_cons, List.sum_cons] at htail ⊢
      rw [hc, mul_zero, zero_add]
      exact htail

theorem zipWith_sub_self (y : List ℝ) :
    List.zipWith (fun h v => h - v) y y = List.replicate y.length 0 := by
  induction y with
  | nil => rfl
  | cons a as ih =>
    simp only [List.zipWith_cons_cons, List.length_cons, List.replicate_succ,
      sub_self, ih]

theorem map_eq_replicate_of_forall {α β : Type} (l : List α) (f : α → β) (b : β)
    (h : ∀ a ∈ l, f a = b) : l.map f = List.replicate l.length b := by
  induction l with
  | nil => rfl
  | cons a as ih =>
    rw [List.map_cons, h a (List.mem_cons_self a as),
      ih (fun u hu => h u (List.mem_cons_of_mem a hu)), List.length_cons,
      List.replicate_succ]

theorem getD_range_map {α : Type} (n j : ℕ) (f : ℕ → α) (d : α) (hj : j < n) :
    ((List.range n).map f).getD j d = f j := by
  rw [List.getD_eq_getElem?_getD, List.getElem?_map, List.getElem?_range hj]
  rfl

theorem sum_map_sub_div (v : List ℝ) (c s : ℝ) :
    (v.map (fun u => (u - c) / s)).sum = (v.sum - (v.length : ℝ) * c) / s := by
  induction v with
  | nil => simp
  | cons a as ih =>
    simp only [List.map_cons, List.sum_cons, List.length_cons, ih]
    push_cast
    ring

theorem sum_map_sq_div (v : List ℝ) (c s : ℝ) :
    (v.map (fun u => ((u - c) / s) ^ 2)).sum
      = (v.map (fun u => (u - c) ^ 2)).sum / s ^ 2 := by
  induction v with
  | nil => simp
  | cons a as ih =>
    simp only [List.map_cons, List.sum_cons, ih]
    ring

theorem np_mean_map_center_div (v : List ℝ) (s : ℝ) :
    np_mean (v.map (fun u => (u - np_mean v) / s)) = 0 := by
  cases v with
  | nil => simp [np_mean]
  | cons a as =>
    have hL : (((a :: as).length : ℕ) : ℝ) ≠ 0 :=
      Nat.cast_ne_zero.mpr (Nat.succ_ne_zero as.length)
    rw [np_mean, List.length_map, sum_map_sub_div, np_mean,
      mul_comm, div_mul_cancel₀ _ hL, sub_self, zero_div, zero_div]

theorem np_std_map_center_div (v : List ℝ) (hne : v ≠ []) (hs : np_std v ≠ 0) :
    np_std (v.map (fun u => (u - np_mean v) / np_std v)) = 1 := by
  have hLpos : (0 : ℝ) < (v.length : ℝ) := by
    exact_mod_cast List.length_pos.mpr hne
  have hT0 : 0 ≤ (v.map (fun u => (u - np_mean v) ^ 2)).sum := by
    refine List.sum_nonneg ?_
    intro u hu
    rcases List.mem_map.mp hu with ⟨a, _, rfl⟩
    positivity
  have hspos : 0 < np_std v := by
    refine (Real.sqrt_nonneg _).lt_of_ne ?_
    exact fun h => hs h.symm
  have hs2 : np_std v ^ 2
      = (v.map (fun u => (u - np_mean v) ^ 2)).sum / (v.length : ℝ) := by
    rw [np_std]
    exact Real.sq_sqrt (div_nonneg hT0 (Nat.cast_nonneg _))
  have hTL : 0 < (v.map (fun u => (u - np_mean v) ^ 2)).sum / (v.length : ℝ) := by
    rw [← hs2]
    positivity
  have hTpos : 0 < (v.map (fun u => (u - np_mean v) ^ 2)).sum := by
    have h := mul_pos hTL hLpos
    rwa [div_mul_cancel₀ _ hLpos.ne'] at h
  rw [np_std, List.length_map, np_mean_map_center_div]
  simp only [sub_zero, List.map_map, Function.comp_def]
  rw [sum_map_sq_div, hs2, div_div, div_mul_cancel₀ _ hLpos.ne',
    div_self hTpos.ne']
  exact Real.sqrt_one

/-! ## Claim theorems -/

/-- C4: for every dataset of `N` rows and every valid training fraction `F`
(between 0 and 100), the split assigns exactly `⌊N * F / 100⌋` rows to the
training set (both features and labels) and the remaining
`N - ⌊N * F / 100⌋` rows to the test set; the final conjunct records that the
splitting point is the mathematical floor (no clamping occurs). -/
theorem load_data_split_lengths (data : List (List ℚ)) (number_x_columns : ℕ)
    (split : ℚ) (h0 : 0 ≤ split) (h100 : split ≤ 100) :
    (load_data_split data number_x_columns split).1.length
        = (⌊(data.length : ℚ) * (split / 100)⌋).toNat
    ∧ (load_data_split data number_x_columns split).2.1.length
        = (⌊(data.length : ℚ) * (split / 100)⌋).toNat
    ∧ (load_data_split data number_x_columns split).2.2.1.length
        = data.length - (⌊(data.length : ℚ) * (split / 100)⌋).toNat
    ∧ (load_data_split data number_x_columns split).2.2.2.length
        = data.length - (⌊(data.length : ℚ) * (split / 100)⌋).toNat
    ∧ ((⌊(data.length : ℚ) * (split / 100)⌋).toNat : ℤ)
        = ⌊(data.length : ℚ) * (split / 100)⌋ := by
  have hnn : (0 : ℚ) ≤ (data.length : ℚ) * (split / 100) :=
    mul_nonneg (Nat.cast_nonneg _) (div_nonneg h0 (by norm_num))
  have hfl0 : 0 ≤ ⌊(data.length : ℚ) * (split / 100)⌋ := Int.floor_nonneg.mpr hnn
  have hle : (data.length : ℚ) * (split / 100) ≤ (data.length : ℚ) := by
    have h1 : split / 100 ≤ 1 := by linarith
    calc (data.length : ℚ) * (split / 100)
        ≤ (data.length : ℚ) * 1 :=
          mul_le_mul_of_nonneg_left h1 (Nat.cast_nonneg _)
      _ = (data.length : ℚ) := mul_one _
  have hfl_le : ⌊(data.length : ℚ) * (split / 100)⌋ ≤ (data.length : ℤ) := by
    have h := Int.floor_le_floor hle
    simpa using h
  have hsp_le : (⌊(data.length : ℚ) * (split / 100)⌋).toNat ≤ data.length :=
    Int.toNat_le.mpr hfl_le
  refine ⟨?_, ?_, ?_, ?_, Int.toNat_of_nonneg hfl0⟩ <;>
    simp [load_data_split, min_eq_left hsp_le]

/-- Witness for C4 at a concrete 5-row dataset split at 80 percent:
4 training rows and 1 testing row. -/
theorem load_data_split_lengths_witness :
    (load_data_split [[1, 0], [2, 1], [3, 0], [4, 1], [5, 0]] 1 80).1.length = 4
    ∧ (load_data_split [[1, 0], [2, 1], [3, 0], [4, 1], [5, 0]] 1 80).2.2.1.length
        = 1 := by
  have h := load_data_split_lengths [[1, 0], [2, 1], [3, 0], [4, 1], [5, 0]] 1 80
    (by norm_num) (by norm_num)
  have hfl : (⌊(([[1, 0], [2, 1], [3, 0], [4, 1], [5, 0]] : List (List ℚ)).length : ℚ)
      * (80 / 100)⌋).toNat = 4 := by
    have h5 : (([[1, 0], [2, 1], [3, 0], [4, 1], [5, 0]] : List (List ℚ)).length : ℚ)
        = 5 := by norm_num
    rw [h5, show (5 : ℚ) * (80 / 100) = ((4 : ℤ) : ℚ) by norm_num,
      Int.floor_intCast]
    rfl
  exact ⟨h.1.trans hfl, by rw [h.2.2.1, hfl]; rfl⟩

/-- C5: the transform branch of the scaler, given the (mean, std) produced by
the fit branch on the same matrix, reproduces the fit branch's scaled output
exactly; and the transform branch is, for all inputs, the pointwise formula
in the supplied mean and std only (it never recomputes statistics of the
matrix being scaled). -/
theorem scale_data_transform_reproduces_fit (data : List (List ℝ)) :
    scale_data_transform data (scale_data_fit data).2.1 (scale_data_fit data).2.2
        = (scale_data_fit data).1
    ∧ ∀ (d : List (List ℝ)) (mean std : List ℝ),
        scale_data_transform d mean std
          = d.map (fun row => (List.range d.headI.length).map
              (fun j => (row.getD j 0 - mean.getD j 0) / std.getD j 0)) :=
  ⟨rfl, fun _ _ _ => rfl⟩

/-- C8: the gradient engine returns `features · (hypothesis − labels) / n`,
and when the hypothesis equals the labels the gradient is the zero vector. -/
theorem compute_gradient_formula_and_zero (hypothesis : List ℝ)
    (x : List (List ℝ)) (y : List ℝ) (n : ℕ) :
    compute_gradient_of_cost_function_multivariate hypothesis x y n
        = (matVecMul x (List.zipWith (fun h v => h - v) hypothesis y)).map
            (fun g => g / (n : ℝ))
    ∧ (hypothesis = y →
        compute_gradient_of_cost_function_multivariate hypothesis x y n
          = List.replicate x.length 0) := by
  refine ⟨rfl, fun hy => ?_⟩
  subst hy
  rw [compute_gradient_of_cost_function_multivariate]
  simp only [zipWith_sub_self, matVecMul, List.map_map]
  refine map_eq_replicate_of_forall _ _ _ (fun row _ => ?_)
  simp only [Function.comp]
  rw [dot_zero_right _ _ (fun c hc => (List.eq_of_mem_replicate hc)), zero_div]

/-- Witness for C8: with hypothesis equal to the labels on a one-example,
one-feature dataset, the gradient evaluates to the zero vector. -/
theorem compute_gradient_zero_witness :
    compute_gradient_of_cost_function_multivariate [1] [[2]] [1] 1
      = List.replicate 1 0 :=
  (compute_gradient_formula_and_zero [1] [[2]] [1] 1).2 rfl

/-- C9: every entry of the hypothesis evaluator's output lies strictly
between 0 and 1. -/
theorem eval_hypothesis_mem_open_unit_interval (w : List ℝ) (x : List (List ℝ))
    (p : ℝ) (hp : p ∈ eval_hypothesis_function_multivariate w x) :
    0 < p ∧ p < 1 := by
  rcases List.mem_map.mp hp with ⟨z, _, rfl⟩
  have hpos : (0 : ℝ) < 1 + Real.exp (-z) := by positivity
  constructor
  · rw [sigmoid]
    exact div_pos one_pos hpos
  · rw [sigmoid, div_lt_one hpos]
    have h := Real.exp_pos (-z)
    linarith

/-- Witness for C9: the hypothesis value at weights `[0]` on the single
example `[0]` is `1/2`, which lies strictly between 0 and 1. -/
theorem eval_hypothesis_open_unit_interval_witness :
    ((1 : ℝ) / 2 ∈ eval_hypothesis_function_multivariate [0] [[5]])
    ∧ (0 < (1 : ℝ) / 2 ∧ (1 : ℝ) / 2 < 1) := by
  have hmem : (1 : ℝ) / 2 ∈ eval_hypothesis_function_multivariate [0] [[5]] := by
    have h : eval_hypothesis_function_multivariate [0] [[5]]
        = [sigmoid (5 * 0 + 0)] := rfl
    rw [h]
    have h2 : sigmoid (5 * 0 + 0) = 1 / 2 := by
      rw [show (5 : ℝ) * 0 + 0 = 0 by ring, sigmoid, neg_zero, Real.exp_zero]
      norm_num
    rw [h2]
    exact List.mem_singleton.mpr rfl
  exact ⟨hmem, eval_hypothesis_mem_open_unit_interval [0] [[5]] _ hmem⟩

/-- C6: the predictor maps each test row to the 0.5-inclusive threshold of
the sigmoid of the bias-augmented dot product; its output length equals the
number of test rows; and for an all-zero weight vector every prediction is
class 1. -/
theorem predict_thresholds (x : List (List ℝ)) (w : List ℝ) :
    predict x w = x.map (fun row =>
        if sigmoid (dot ((1 : ℝ) :: row) w) ≥ 0.5 then (1 : ℝ) else 0)
    ∧ (predict x w).length = x.length
    ∧ ((∀ c ∈ w, c = 0) → predict x w = List.replicate x.length 1) := by
  have h1 : predict x w = x.map (fun row =>
      if sigmoid (dot ((1 : ℝ) :: row) w) ≥ 0.5 then (1 : ℝ) else 0) := by
    simp only [predict, List.map_map]
    rfl
  refine ⟨h1, by rw [h1]; simp, fun hw => ?_⟩
  rw [h1]
  refine map_eq_replicate_of_forall _ _ _ (fun row _ => ?_)
  show (if sigmoid (dot ((1 : ℝ) :: row) w) ≥ 0.5 then (1 : ℝ) else 0) = 1
  have hdot : dot ((1 : ℝ) :: row) w = 0 := dot_zero_right _ _ hw
  have hhalf : sigmoid (dot ((1 : ℝ) :: row) w) ≥ 0.5 := by
    rw [hdot, sigmoid, neg_zero, Real.exp_zero]
    norm_num
  rw [if_pos hhalf]

/-- Witness for C6: with the all-zero weight vector on a two-row test set,
both predictions are class 1. -/
theorem predict_all_ones_witness :
    predict [[2], [3]] [0, 0] = List.replicate 2 1 := by
  refine (predict_thresholds [[2], [3]] [0, 0]).2.2 ?_
  intro c hc
  rcases List.mem_cons.mp hc with h | h
  · exact h
  · exact List.mem_singleton.mp h

/-- C7: the fit branch of the scaler maps every entry to
`(value - columnMean) / columnStd` with the population mean and population
standard deviation of its column, and — whenever every column has non-zero
standard deviation — every column of the scaled matrix has mean 0 and
standard deviation 1. -/
theorem scale_data_fit_standardizes (data : List (List ℝ))
    (hne : data ≠ [])
    (hrect : ∀ row ∈ data, row.length = data.headI.length)
    (hstd : ∀ j, j < data.headI.length → np_std (column data j) ≠ 0) :
    (scale_data_fit data).1
        = data.map (fun row => (List.range data.headI.length).map
            (fun j => (row.getD j 0 - np_mean (column data j))
              / np_std (column data j)))
    ∧ ∀ j, j < data.headI.length →
        np_mean (column (scale_data_fit data).1 j) = 0
        ∧ np_std (column (scale_data_fit data).1 j) = 1 := by
  have hform : (scale_data_fit data).1
      = data.map (fun row => (List.range data.headI.length).map
          (fun j => (row.getD j 0 - np_mean (column data j))
            / np_std (column data j))) := by
    simp only [scale_data_fit]
    refine List.map_congr_left (fun row _ => ?_)
    refine List.map_congr_left (fun j hj => ?_)
    rw [np_mean_axis0, np_std_axis0,
      getD_range_map _ _ _ _ (List.mem_range.mp hj),
      getD_range_map _ _ _ _ (List.mem_range.mp hj)]
  refine ⟨hform, fun j hj => ?_⟩
  have hcol : column (scale_data_fit data).1 j
      = (column data j).map (fun u =>
          (u - np_mean (column data j)) / np_std (column data j)) := by
    rw [hform, column, column, List.map_map, List.map_map]
    refine List.map_congr_left (fun row _ => ?_)
    simp only [Function.comp_def]
    rw [getD_range_map _ _ _ _ hj]
    rfl
  have hcne : column data j ≠ [] := by
    rw [column]
    exact fun h => hne (List.map_eq_nil_iff.mp h)
  rw [hcol]
  exact ⟨np_mean_map_center_div _ _,
    np_std_map_center_div _ hcne (hstd j hj)⟩

/-- Witness for C7 on the training matrix `[[0], [2]]` (column mean 1,
population standard deviation 1): the scaled column has mean 0 and standard
deviation 1. -/
theorem scale_data_fit_standardizes_witness :
    np_mean (column (scale_data_fit [[0], [2]]).1 0) = 0
    ∧ np_std (column (scale_data_fit [[0], [2]]).1 0) = 1 := by
  have hstd : ∀ j, j < ([[(0 : ℝ)], [2]] : List (List ℝ)).headI.length →
      np_std (column [[(0 : ℝ)], [2]] j) ≠ 0 := by
    intro j hj
    have hj0 : j = 0 := by
      simpa using Nat.lt_one_iff.mp hj
    subst hj0
    have hcol : column [[(0 : ℝ)], [2]] 0 = [0, 2] := rfl
    have hm : np_mean [(0 : ℝ), 2] = 1 := by
      rw [np_mean]
      norm_num
    rw [hcol, np_std]
    simp only [hm]
    rw [show ((([(0 : ℝ), 2].map (fun u => (u - 1) ^ 2)).sum)
        / (([(0 : ℝ), 2].length : ℕ) : ℝ)) = 1 by norm_num, Real.sqrt_one]
    exact one_ne_zero
  have hrect : ∀ row ∈ ([[(0 : ℝ)], [2]] : List (List ℝ)),
      row.length = ([[(0 : ℝ)], [2]] : List (List ℝ)).headI.length := by
    intro row hr
    rcases List.mem_cons.mp hr with h | h
    · rw [h]
      rfl
    · rw [List.mem_singleton.mp h]
      rfl
  exact (scale_data_fit_standardizes [[0], [2]] (by simp) hrect hstd).2 0
    (by norm_num)

theorem pydiv_eq_none (a b : ℚ) (h : b = 0) : pydiv a b = none := by
  rw [pydiv, if_pos h]

theorem pydiv_eq_some (a b : ℚ) (h : b ≠ 0) : pydiv a b = some (a / b) := by
  rw [pydiv, if_neg h]

/-- C1 counterexample: at the confusion matrix (tp, tn, fp, fn) = (0, 5, 0, 0)
the precision denominator tp + fp is zero, and the metric computation raises
an uncaught division-by-zero error (it produces no result at all), instead of
completing with a non-finite value for the affected metric. -/
theorem print_performance_metrics_zero_denominator_counterexample :
    print_performance_metrics (0, 5, 0, 0) = none := by
  have hB : (((0 : ℕ) : ℚ) + ((5 : ℕ) : ℚ) + ((0 : ℕ) : ℚ) + ((0 : ℕ) : ℚ)) ≠ 0 := by
    norm_num
  have hP : (((0 : ℕ) : ℚ) + ((0 : ℕ) : ℚ)) = 0 := by norm_num
  simp only [print_performance_metrics, pydiv_eq_some _ _ hB, Option.some_bind,
    pydiv_eq_none _ _ hP, Option.none_bind]

/-- C1 amended: whenever a metric's denominator is zero — the total count
(accuracy), tp + fp (precision), tp + fn (recall), tn + fp (specificity), or
precision + recall (F1, zero whenever tp = 0 while fp and fn are positive) —
the metrics computation aborts with a division-by-zero exception and reports
nothing, rather than reporting a non-finite result or a recovered default. -/
theorem print_performance_metrics_none_of_zero_denominator
    (tp tn fp fn : ℕ)
    (h : tp + tn + fp + fn = 0 ∨ tp + fp = 0 ∨ tp + fn = 0 ∨ tn + fp = 0
        ∨ (tp = 0 ∧ 0 < fp ∧ 0 < fn)) :
    print_performance_metrics (tp, tn, fp, fn) = none := by
  rcases h with h | h | h | h | ⟨h1, h2, h3⟩
  · have hB : ((tp : ℚ) + tn + fp + fn) = 0 := by exact_mod_cast h
    simp only [print_performance_metrics, pydiv_eq_none _ _ hB, Option.none_bind]
  · have hP : ((tp : ℚ) + fp) = 0 := by exact_mod_cast h
    rcases eq_or_ne ((tp : ℚ) + tn + fp + fn) 0 with hB | hB
    · simp only [print_performance_metrics, pydiv_eq_none _ _ hB, Option.none_bind]
    · simp only [print_performance_metrics, pydiv_eq_some _ _ hB, Option.some_bind,
        pydiv_eq_none _ _ hP, Option.none_bind]
  · have hR : ((tp : ℚ) + fn) = 0 := by exact_mod_cast h
    rcases eq_or_ne ((tp : ℚ) + tn + fp + fn) 0 with hB | hB
    · simp only [print_performance_metrics, pydiv_eq_none _ _ hB, Option.none_bind]
    · rcases eq_or_ne ((tp : ℚ) + fp) 0 with hP | hP
      · simp only [print_performance_metrics, pydiv_eq_some _ _ hB, Option.some_bind,
          pydiv_eq_none _ _ hP, Option.none_bind]
      · simp only [print_performance_metrics, pydiv_eq_some _ _ hB, Option.some_bind,
          pydiv_eq_some _ _ hP, pydiv_eq_none _ _ hR, Option.none_bind]
  · have hS : ((tn : ℚ) + fp) = 0 := by exact_mod_cast h
    rcases eq_or_ne ((tp : ℚ) + tn + fp + fn) 0 with hB | hB
    · simp only [print_performance_metrics, pydiv_eq_none _ _ hB, Option.none_bind]
    · rcases eq_or_ne ((tp : ℚ) + fp) 0 with hP | hP
      · simp only [print_performance_metrics, pydiv_eq_some _ _ hB, Option.some_bind,
          pydiv_eq_none _ _ hP, Option.none_bind]
      · rcases eq_or_ne ((tp : ℚ) + fn) 0 with hR | hR
        · simp only [print_performance_metrics, pydiv_eq_some _ _ hB, Option.some_bind,
            pydiv_eq_some _ _ hP, pydiv_eq_none _ _ hR, Option.none_bind]
        · simp only [print_performance_metrics, pydiv_eq_some _ _ hB, Option.some_bind,
            pydiv_eq_some _ _ hP, pydiv_eq_some _ _ hR,
            pydiv_eq_none _ _ hS, Option.none_bind]
  · subst h1
    have hB : ((0 : ℕ) : ℚ) + tn + fp + fn ≠ 0 := by
      have hn : (0 : ℕ) + tn + fp + fn ≠ 0 := by omega
      exact_mod_cast hn
    have hP : ((0 : ℕ) : ℚ) + fp ≠ 0 := by
      have hn : (0 : ℕ) + fp ≠ 0 := by omega
      exact_mod_cast hn
    have hR : ((0 : ℕ) : ℚ) + fn ≠ 0 := by
      have hn : (0 : ℕ) + fn ≠ 0 := by omega
      exact_mod_cast hn
    have hS : ((tn : ℚ)) + fp ≠ 0 := by
      have hn : tn + fp ≠ 0 := by omega
      exact_mod_cast hn
    have hF : (((0 : ℕ) : ℚ) / (((0 : ℕ) : ℚ) + fp))
        + (((0 : ℕ) : ℚ) / (((0 : ℕ) : ℚ) + fn)) = 0 := by
      simp
    simp only [print_performance_metrics, pydiv_eq_some _ _ hB, Option.some_bind,
      pydiv_eq_some _ _ hP, pydiv_eq_some _ _ hR, pydiv_eq_some _ _ hS,
      pydiv_eq_none _ _ hF, Option.none_bind]

/-- Witness for the amended C1 at confusion matrix (3, 0, 0, 0): the
specificity denominator tn + fp is zero and no metrics are produced. -/
theorem print_performance_metrics_none_witness :
    print_performance_metrics (3, 0, 0, 0) = none :=
  print_performance_metrics_none_of_zero_denominator 3 0 0 0
    (Or.inr (Or.inr (Or.inr (Or.inl rfl))))

/-- C2 counterexample: `predictions = [1]` and `actualLabels = [1, 0]` have
unequal lengths, yet the confusion-matrix computation signals no error: it
silently ignores the extra actual label and returns counts. -/
theorem get_confusion_matrix_no_fail_on_longer_actuals :
    ([(1 : ℚ)] : List ℚ).length ≠ ([(1 : ℚ), 0] : List ℚ).length
    ∧ get_confusion_matrix [1] [1, 0] = some (1, 0, 0, 0) := by
  refine ⟨by decide, by decide⟩

/-- C2 amended: the confusion-matrix computation fails (uncaught index error,
no result) exactly when some prediction at a position beyond the end of the
actual-label list is 0 or 1; when the predictions are no more numerous than
the actual labels — in particular whenever the actual list is longer — it
returns counts and silently ignores the extra actual labels, and predictions
outside {0, 1} beyond the end of the actual list are skipped without any
index access. -/
theorem get_confusion_matrix_none_iff (p y : List ℚ) :
    get_confusion_matrix p y = none
      ↔ ∃ q ∈ p.drop y.length, q = 1 ∨ q = 0 := by
  induction p generalizing y with
  | nil => simp [get_confusion_matrix]
  | cons a ps ih =>
    cases y with
    | nil =>
      rw [get_confusion_matrix]
      by_cases ha : a = 1 ∨ a = 0
      · simp only [if_pos ha, List.length_nil, List.drop_zero]
        constructor
        · intro _
          exact ⟨a, List.mem_cons_self a ps, ha⟩
        · intro _
          trivial
      · simp only [if_neg ha, List.length_nil, List.drop_zero]
        rw [ih []]
        simp only [List.length_nil, List.drop_zero]
        constructor
        · rintro ⟨q, hq, hq01⟩
          exact ⟨q, List.mem_cons_of_mem a hq, hq01⟩
        · rintro ⟨q, hq, hq01⟩
          rcases List.mem_cons.mp hq with rfl | hq
          · exact absurd hq01 ha
          · exact ⟨q, hq, hq01⟩
    | cons b ys =>
      rw [get_confusion_matrix]
      rcases hg : get_confusion_matrix ps ys with _ | m
      · simp only [List.length_cons, List.drop_succ_cons, ← ih ys, hg]
      · obtain ⟨tp, tn, fp, fn⟩ := m
        simp only [hg, List.length_cons, List.drop_succ_cons, ← ih ys, hg]
        split_ifs <;> simp

/-- Witness for the amended C2: with two predictions and one actual label,
the out-of-range prediction 1 triggers the failure (no result). -/
theorem get_confusion_matrix_none_iff_witness :
    get_confusion_matrix [1, 1] [0] = none :=
  (get_confusion_matrix_none_iff [1, 1] [0]).mpr
    ⟨1, by decide, Or.inl rfl⟩

theorem get_confusion_matrix_cons_cons (a b : ℚ) (ps ys : List ℚ)
    (tp tn fp fn : ℕ)
    (hg : get_confusion_matrix ps ys = some (tp, tn, fp, fn)) :
    get_confusion_matrix (a :: ps) (b :: ys)
      = if a = 1 ∧ b = 1 then some (tp + 1, tn, fp, fn)
        else if a = 0 ∧ b = 0 then some (tp, tn + 1, fp, fn)
        else if a = 1 ∧ b = 0 then some (tp, tn, fp + 1, fn)
        else if a = 0 ∧ b = 1 then some (tp, tn, fp, fn + 1)
        else some (tp, tn, fp, fn) := by
  rw [get_confusion_matrix, hg]

theorem get_confusion_matrix_counts_aux (p y : List ℚ)
    (hlen : p.length = y.length) :
    ∃ tp tn fp fn, get_confusion_matrix p y = some (tp, tn, fp, fn)
      ∧ tp + tn + fp + fn
          = (p.zip y).countP
              (fun q => decide ((q.1 = 0 ∨ q.1 = 1) ∧ (q.2 = 0 ∨ q.2 = 1))) := by
  induction p generalizing y with
  | nil => exact ⟨0, 0, 0, 0, rfl, by simp⟩
  | cons a ps ih =>
    cases y with
    | nil => simp at hlen
    | cons b ys =>
      have hlen2 : ps.length = ys.length := by simpa using hlen
      obtain ⟨tp, tn, fp, fn, hg, hsum⟩ := ih ys hlen2
      have hstep := get_confusion_matrix_cons_cons a b ps ys tp tn fp fn hg
      by_cases h11 : a = 1 ∧ b = 1
      · refine ⟨tp + 1, tn, fp, fn, ?_, ?_⟩
        · rw [hstep, if_pos h11]
        · rw [List.zip_cons_cons,
            List.countP_cons_of_pos _ _ (by simp [h11.1, h11.2]), ← hsum]
          omega
      · by_cases h00 : a = 0 ∧ b = 0
        · refine ⟨tp, tn + 1, fp, fn, ?_, ?_⟩
          · rw [hstep, if_neg h11, if_pos h00]
          · rw [List.zip_cons_cons,
              List.countP_cons_of_pos _ _ (by simp [h00.1, h00.2]), ← hsum]
            omega
        · by_cases h10 : a = 1 ∧ b = 0
          · refine ⟨tp, tn, fp + 1, fn, ?_, ?_⟩
            · rw [hstep, if_neg h11, if_neg h00, if_pos h10]
            · rw [List.zip_cons_cons,
                List.countP_cons_of_pos _ _ (by simp [h10.1, h10.2]), ← hsum]
              omega
          · by_cases h01 : a = 0 ∧ b = 1
            · refine ⟨tp, tn, fp, fn + 1, ?_, ?_⟩
              · rw [hstep, if_neg h11, if_neg h00, if_neg h10, if_pos h01]
              · rw [List.zip_cons_cons,
                  List.countP_cons_of_pos _ _ (by simp [h01.1, h01.2]), ← hsum]
                omega
            · refine ⟨tp, tn, fp, fn, ?_, ?_⟩
              · rw [hstep, if_neg h11, if_neg h00, if_neg h10, if_neg h01]
              · have hpred : ¬((a = 0 ∨ a = 1) ∧ (b = 0 ∨ b = 1)) := by
                  rintro ⟨ha, hb⟩
                  rcases ha with ha | ha <;> rcases hb with hb | hb
                  · exact h00 ⟨ha, hb⟩
                  · exact h01 ⟨ha, hb⟩
                  · exact h10 ⟨ha, hb⟩
                  · exact h11 ⟨ha, hb⟩
                rw [List.zip_cons_cons,
                  List.countP_cons_of_neg _ _ (by simp [hpred]), ← hsum]

/-- C10: for equal-length inputs the confusion-matrix computation returns
counts in which only positions with both the prediction and the actual label
in {0, 1} are counted; the four counts sum to the number of such positions,
and when every value is in {0, 1} they sum to the input length. -/
theorem get_confusion_matrix_counts (p y : List ℚ)
    (hlen : p.length = y.length) :
    ∃ tp tn fp fn, get_confusion_matrix p y = some (tp, tn, fp, fn)
      ∧ tp + tn + fp + fn
          = (p.zip y).countP
              (fun q => decide ((q.1 = 0 ∨ q.1 = 1) ∧ (q.2 = 0 ∨ q.2 = 1)))
      ∧ ((∀ q ∈ p.zip y, (q.1 = 0 ∨ q.1 = 1) ∧ (q.2 = 0 ∨ q.2 = 1)) →
          tp + tn + fp + fn = p.length) := by
  obtain ⟨tp, tn, fp, fn, hg, hsum⟩ := get_confusion_matrix_counts_aux p y hlen
  refine ⟨tp, tn, fp, fn, hg, hsum, fun hall => ?_⟩
  have hcnt : (p.zip y).countP
      (fun q => decide ((q.1 = 0 ∨ q.1 = 1) ∧ (q.2 = 0 ∨ q.2 = 1)))
      = (p.zip y).length :=
    List.countP_eq_length.mpr (fun q hq => decide_eq_true (hall q hq))
  rw [hsum, hcnt, List.length_zip, hlen, min_self]

/-- Witness for C10 on predictions `[1, 0, 5]` against actuals `[1, 1, 1]`:
the position with prediction 5 is skipped, and the counts sum to the number
of in-range positions. -/
theorem get_confusion_matrix_counts_witness :
    ∃ tp tn fp fn,
      get_confusion_matrix [1, 0, 5] [1, 1, 1] = some (tp, tn, fp, fn)
      ∧ tp + tn + fp + fn
          = (([(1 : ℚ), 0, 5]).zip [(1 : ℚ), 1, 1]).countP
              (fun q => decide ((q.1 = 0 ∨ q.1 = 1) ∧ (q.2 = 0 ∨ q.2 = 1)))
      ∧ ((∀ q ∈ ([(1 : ℚ), 0, 5]).zip [(1 : ℚ), 1, 1],
            (q.1 = 0 ∨ q.1 = 1) ∧ (q.2 = 0 ∨ q.2 = 1)) →
          tp + tn + fp + fn = ([(1 : ℚ), 0, 5] : List ℚ).length) :=
  get_confusion_matrix_counts [1, 0, 5] [1, 1, 1] rfl

theorem gd_weights_shift (x : List (List ℝ)) (y : List ℝ) (lr : ℝ)
    (w : List ℝ) (k : ℕ) :
    gd_weights x y lr (gd_weights x y lr w 1) k = gd_weights x y lr w (k + 1) :=
  rfl

theorem gd_l2_shift (x : List (List ℝ)) (y : List ℝ) (lr : ℝ)
    (w : List ℝ) (k : ℕ) :
    gd_l2 x y lr (gd_weights x y lr w 1) k = gd_l2 x y lr w (k + 1) :=
  rfl

theorem gradient_descent_loop_characterization (x : List (List ℝ))
    (y : List ℝ) (lr sc : ℝ) :
    ∀ (fuel : ℕ) (w w2 : List ℝ),
      gradient_descent_loop x y lr sc fuel w = some w2 ↔
        ∃ k, k < fuel ∧ (∀ j, j < k → ¬ gd_l2 x y lr w j < sc)
          ∧ gd_l2 x y lr w k < sc ∧ w2 = gd_weights x y lr w (k + 1) := by
  intro fuel
  induction fuel with
  | zero =>
    intro w w2
    constructor
    · intro h
      exact absurd h (by simp [gradient_descent_loop])
    · rintro ⟨k, hk, _⟩
      exact absurd hk (Nat.not_lt_zero k)
  | succ fuel ih =>
    intro w w2
    have hstep : gradient_descent_loop x y lr sc (fuel + 1) w
        = if gd_l2 x y lr w 0 < sc then some (gd_weights x y lr w 1)
          else gradient_descent_loop x y lr sc fuel (gd_weights x y lr w 1) :=
      rfl
    rw [hstep]
    by_cases hc : gd_l2 x y lr w 0 < sc
    · rw [if_pos hc]
      constructor
      · intro h
        exact ⟨0, Nat.succ_pos fuel, fun j hj => absurd hj (Nat.not_lt_zero j),
          hc, (Option.some_inj.mp h).symm⟩
      · rintro ⟨k, hk, hprev, hck, hw2⟩
        cases k with
        | zero => rw [hw2]
        | succ k => exact absurd hc (hprev 0 (Nat.succ_pos k))
    · rw [if_neg hc, ih (gd_weights x y lr w 1) w2]
      constructor
      · rintro ⟨k, hk, hprev, hck, hw2⟩
        refine ⟨k + 1, Nat.succ_lt_succ hk, ?_, ?_, ?_⟩
        · intro j hj
          cases j with
          | zero => exact hc
          | succ j =>
            have hjk : j < k := Nat.lt_of_succ_lt_succ hj
            have hpj := hprev j hjk
            rwa [gd_l2_shift] at hpj
        · rwa [gd_l2_shift] at hck
        · rwa [gd_weights_shift] at hw2
      · rintro ⟨k, hk, hprev, hck, hw2⟩
        cases k with
        | zero => exact absurd hck hc
        | succ k =>
          refine ⟨k, Nat.lt_of_succ_lt_succ hk, ?_, ?_, ?_⟩
          · intro j hj
            have hpj := hprev (j + 1) (Nat.succ_lt_succ hj)
            rwa [← gd_l2_shift] at hpj
          · rw [gd_l2_shift]
            exact hck
          · rw [gd_weights_shift]
            exact hw2

/-- C3: for every fuel bound, the trainer returns a weight vector precisely
when some iteration `k` within the bound is the first whose computed gradient
has L2 norm below the stopping threshold — the sole way the loop returns —
and the returned vector is the `(k+1)`-st iterate of the loop body
(hypothesis on the bias-augmented training set → gradient → L2 norm →
`w ← w - learningRate * gradient`, applied once more at step `k` before the
norm test fires).  In particular, if no iteration's gradient norm goes below
the threshold, the loop never returns for any amount of fuel: there is no
maximum-iteration cap. -/
theorem gradient_descent_converges_iff (fuel : ℕ) (x : List (List ℝ))
    (y w w2 : List ℝ) (lr sc : ℝ) :
    gradient_descent fuel x y w lr sc = some w2 ↔
      ∃ k, k < fuel
        ∧ (∀ j, j < k → ¬ gd_l2 (augmented_transposed x) y lr w j < sc)
        ∧ gd_l2 (augmented_transposed x) y lr w k < sc
        ∧ w2 = gd_weights (augmented_transposed x) y lr w (k + 1) :=
  gradient_descent_loop_characterization (augmented_transposed x) y lr sc
    fuel w w2

/-- Witness for C3: on a one-example dataset with no feature columns (bias
only), zero initial weight, learning rate 1 and stopping threshold 2, the
first iteration's gradient norm (1/2) is already below the threshold, and the
trainer returns the once-updated weight vector `[-(1/2)]`. -/
theorem gradient_descent_converges_witness :
    gradient_descent 1 [[]] [0] [0] 1 2 = some [-(1 / 2)] := by
  have hsig : sigmoid (1 * 0 + 0) = 1 / 2 := by
    rw [show (1 : ℝ) * 0 + 0 = 0 by ring, sigmoid, neg_zero, Real.exp_zero]
    norm_num
  refine (gradient_descent_converges_iff 1 [[]] [0] [0] [-(1 / 2)] 1 2).mpr ?_
  refine ⟨0, Nat.one_pos, fun j hj => absurd hj (Nat.not_lt_zero j), ?_, ?_⟩
  · have he : gd_l2 (augmented_transposed [[]]) [0] 1 [0] 0
        = Real.sqrt (((1 * (sigmoid (1 * 0 + 0) - 0) + 0)
            / (([(0 : ℝ)].length : ℕ) : ℝ)) ^ 2 + 0) := rfl
    rw [he, hsig]
    have harg : ((1 * ((1 : ℝ) / 2 - 0) + 0) / (([(0 : ℝ)].length : ℕ) : ℝ)) ^ 2
        + 0 = 1 / 4 := by
      norm_num
    rw [harg, show (2 : ℝ) = Real.sqrt 4 by
      rw [show (4 : ℝ) = 2 ^ 2 by norm_num, Real.sqrt_sq (by norm_num)]]
    exact Real.sqrt_lt_sqrt (by norm_num) (by norm_num)
  · have hw : gd_weights (augmented_transposed [[]]) [0] 1 [0] 1
        = [0 - 1 * ((1 * (sigmoid (1 * 0 + 0) - 0) + 0)
            / (([(0 : ℝ)].length : ℕ) : ℝ))] := rfl
    rw [hw, hsig]
    norm_num

end LogisticClassification
